import Mathlib

/-
Verification development for the CCFrank4dblp rank-resolution core.

Shallow embedding of:
  - src/js/core/DBLPSiteHandler.js (the CCFData lookup table part)
  - src/js/services/APIService.js  (candidate disambiguation and dispatch)
  - src/js/services/CacheService.js (bounded, TTL-expiring cache)

Modelling conventions, stated once here:
  - JS strings are Lean String; JS string helpers (indexOf, lastIndexOf,
    substring, startsWith, toUpperCase, toLowerCase) are modelled on the
    underlying character lists with JS clamping semantics.  Inputs in the
    claims are ASCII, where Lean toUpper/toLower agree with JS.
  - A JS value that may be a string or undefined is Option String
    (none = undefined); the JS truthiness test on strings is
    "is some and nonempty".
  - Machine timestamps (Date.now) are Nat milliseconds passed explicitly.
  - localStorage is an association list in key order; JSON stringify and
    parse round-trip exactly (no corrupted entries are modelled, since no
    claim concerns corruption).  localStorage never holds duplicate keys,
    so removeItem(key) removes the entry itself; the index-based cleanup
    loop in the source, which removes during iteration and therefore
    skips the element following each removal (i++ after the shift), is
    modelled structurally with the same skip.
  - The quota-exceeded exception of localStorage.setItem is modelled by
    two Bool oracles (one per low-level write attempt inside setItem);
    non-quota storage errors are not modelled since no claim needs them.
  - The dblp search response year field is Int per the SearchResponse
    data model; the target year arrives as a decimal string and goes
    through Number(), modelled for canonical decimal numerals.
-/

/-! ## JS string primitives -/

/-- JS s.startsWith(pre). -/
def jsStartsWith (s pre : String) : Bool :=
  pre.data.isPrefixOf s.data

/-- JS toUpperCase, per character (ASCII inputs). -/
def jsToUpper (s : String) : String := String.mk (s.data.map Char.toUpper)

/-- JS toLowerCase, per character (ASCII inputs). -/
def jsToLower (s : String) : String := String.mk (s.data.map Char.toLower)

/-- First index at which pat occurs in hay, if any. -/
def findSub : List Char → List Char → Option Nat
  | [], pat => if pat.isEmpty then some 0 else none
  | c :: rest, pat =>
    if pat.isPrefixOf (c :: rest) then some 0
    else (findSub rest pat).map (· + 1)

/-- JS s.indexOf(pat): first occurrence index, or -1. -/
def jsIndexOfStr (s pat : String) : Int :=
  match findSub s.data pat.data with
  | some n => (n : Int)
  | none => -1

/-- Helper for lastIndexOf: index of last occurrence of c, scanning with counter. -/
def lastIdxAux (c : Char) : List Char → Nat → Option Nat → Option Nat
  | [], _, acc => acc
  | x :: xs, i, acc => lastIdxAux c xs (i + 1) (if x = c then some i else acc)

/-- JS s.lastIndexOf(c): last occurrence index, or -1. -/
def jsLastIndexOfChar (s : String) (c : Char) : Int :=
  match lastIdxAux c s.data 0 none with
  | some n => (n : Int)
  | none => -1

/-- JS s.substring(a, b): clamps both arguments to [0, length] and swaps
them when start exceeds end. -/
def jsSubstring (s : String) (a b : Int) : String :=
  let len : Int := (s.data.length : Int)
  let a' := max 0 (min a len)
  let b' := max 0 (min b len)
  let lo := (min a' b').toNat
  let hi := (max a' b').toNat
  String.mk ((s.data.drop lo).take (hi - lo))

/-- Decimal value of a digit string. -/
def digitsToNat (l : List Char) : Nat :=
  l.foldl (fun acc c => acc * 10 + (c.toNat - 48)) 0

/-- JS Number() on the target-year argument, for canonical decimal numerals
(the only shape the resolver is called with). -/
def jsNumber (s : String) : Int :=
  if !s.data.isEmpty && s.data.all (·.isDigit) then (digitsToNat s.data : Int) else 0

/-- JS x || y where x is a string-or-undefined and y a string: y is used
when x is undefined or empty (falsy). -/
def jsOr (a : Option String) (b : String) : String :=
  match a with
  | some s => if s = "" then b else s
  | none => b

/-- JS x || y where both sides are string-or-undefined. -/
def jsOrOpt (a b : Option String) : Option String :=
  match a with
  | some s => if s = "" then b else some s
  | none => b

/-- JS isNaN(s) for the abbreviation guard: true when s is not a numeral.
Only nonempty strings reach it, and integral numerals are the numeric
shape that occurs there. -/
def jsIsNaNStr (s : String) : Bool :=
  !(!s.data.isEmpty && s.data.all (·.isDigit))

/-! ## Year-suffix stripping (the regex /[0-9]{1,4}(-[0-9]{1,4})?$/)

A replace of that anchored pattern by the empty string removes the
leftmost (hence longest) suffix of the form
  digits{1,4}  or  digits{1,4} - digits{1,4}.
From a given start position the regex matches exactly when the leading
digit run A of the remaining text satisfies 1 <= |A| <= 4 and the rest is
either empty or a dash followed by 1-4 digits reaching the end: a shorter
choice of A leaves a digit where the dash or the end is required, so the
maximal-run decomposition is the only viable one. -/

/-- 1 to 4 digits. -/
def yearDigits (l : List Char) : Bool :=
  l.all (·.isDigit) && decide (1 ≤ l.length) && decide (l.length ≤ 4)

/-- Whether the whole list matches [0-9]{1,4}(-[0-9]{1,4})?$ from its start. -/
def yearSuffixMatch (t : List Char) : Bool :=
  let A := t.takeWhile (·.isDigit)
  let R := t.dropWhile (·.isDigit)
  yearDigits A && (R.isEmpty || ((R.headD ' ' == '-') && yearDigits R.tail))

/-- Remove the leftmost suffix matching the year pattern, keeping the
prefix before it; identity when no suffix matches. -/
def stripYearSuffix : List Char → List Char
  | [] => []
  | c :: rest =>
    if yearSuffixMatch (c :: rest) then []
    else c :: stripYearSuffix rest

/-- CCFData._cleanUrl: url.replace(/[0-9]{1,4}(-[0-9]{1,4})?$/, ""). -/
def cleanUrl (url : String) : String :=
  String.mk (stripYearSuffix url.data)

/-! ## CCFData (src/js/core/DBLPSiteHandler.js, class CCFData) -/

structure CCFEntry where
  rank : String
  abbr : String
  fullName : String
  url : String
  type : String
deriving DecidableEq, Repr

/-- JS Map.get. -/
def assocGet {β : Type} (m : List (String × β)) (k : String) : Option β :=
  (m.find? (fun e => e.1 == k)).map (·.2)

/-- JS Map.set: replace in place, else append (insertion order preserved). -/
def assocSet {β : Type} : List (String × β) → String → β → List (String × β)
  | [], k, v => [(k, v)]
  | e :: rest, k, v => if e.1 = k then (k, v) :: rest else e :: assocSet rest k v

structure CCFData where
  conferences : List (String × CCFEntry)
  journals : List (String × CCFEntry)
deriving DecidableEq, Repr

def emptyCCF : CCFData := ⟨[], []⟩

/-- CCFData.addEntry(rank, abbr, fullName, url, type): the record goes
under both the upper-cased abbreviation key and the raw url key of the
mapping selected by type.  The url key is stored as given, unstripped. -/
def addEntry (st : CCFData) (rank abbr fullName url ty : String) : CCFData :=
  let entry : CCFEntry := ⟨rank, jsToUpper abbr, fullName, url, ty⟩
  if ty = "conference" then
    { st with conferences := assocSet (assocSet st.conferences (jsToUpper abbr) entry) url entry }
  else
    { st with journals := assocSet (assocSet st.journals (jsToUpper abbr) entry) url entry }

/-- The fuzzy fallback loop of getRankByAbbr: first conference-map key
that starts with the query and differs from it. -/
def fuzzyFind : List (String × CCFEntry) → String → Option CCFEntry
  | [], _ => none
  | (k, v) :: rest, up =>
    if jsStartsWith k up && decide (k ≠ up) then some v else fuzzyFind rest up

/-- CCFData.getRankByAbbr: exact match in conferences then journals under
the upper-cased key; on miss, the fuzzy loop over the conferences map only. -/
def getRankByAbbr (st : CCFData) (abbr : String) : Option CCFEntry :=
  if abbr = "" then none
  else
    let up := jsToUpper abbr
    match jsOrOptE (assocGet st.conferences up) (assocGet st.journals up) with
    | some e => some e
    | none => fuzzyFind st.conferences up
where
  /-- JS a || b on entry objects (entries are always truthy). -/
  jsOrOptE : Option CCFEntry → Option CCFEntry → Option CCFEntry
  | some e, _ => some e
  | none, b => b

/-- CCFData.getRankByUrl: null on empty url, else exact lookup of the
year-stripped url in conferences then journals. -/
def getRankByUrl (st : CCFData) (url : String) : Option CCFEntry :=
  if url = "" then none
  else
    match assocGet st.conferences (cleanUrl url) with
    | some e => some e
    | none => assocGet st.journals (cleanUrl url)

/-- CCFData._initData, as shipped in the source. -/
def ccfInit : CCFData :=
  addEntry (addEntry (addEntry (addEntry emptyCCF
    "A" "PPoPP" "ACM SIGPLAN Symposium on Principles & Practice of Parallel Programming" "/conf/ppopp/ppopp" "conference")
    "A" "FAST" "Conference on File and Storage Technologies" "/conf/fast/fast" "conference")
    "A" "TOCS" "ACM Transactions on Computer Systems" "/journals/tocs/tocs" "journal")
    "A" "TOS" "ACM Transactions on Storage" "/journals/tos/tos" "journal"

/-! ## APIService (src/js/services/APIService.js) -/

structure HitInfo where
  /-- Publication type tag, e.g. "Informal Publications". -/
  type : String
  /-- First-listed author display names; the source reads the first one
  (and throws a TypeError, aborting resolution, when absent). -/
  authors : List String
  /-- Publication year, Int per the SearchResponse data model. -/
  year : Int
  /-- Canonical dblp record URL. -/
  url : String
  /-- Issue number field, absent on most hits. -/
  number : Option String
  /-- Venue field, absent on most hits. -/
  venue : Option String
deriving DecidableEq, Repr

structure Hit where
  info : HitInfo
deriving DecidableEq, Repr

structure SearchResp where
  /-- resp["@total"]. -/
  total : Nat
  /-- resp["@sent"]. -/
  sent : Nat
  /-- resp.hit. -/
  hit : List Hit
deriving DecidableEq, Repr

/-- PACM_PL_CONFERENCE_MAP, the fixed alias table. -/
def pacmPlConferenceMap (n : String) : Option String :=
  if n = "oopsla" then some "/conf/oopsla/oopsla"
  else if n = "oopsla1" then some "/conf/oopsla/oopsla"
  else if n = "oopsla2" then some "/conf/oopsla/oopsla"
  else if n = "popl" then some "/conf/popl/popl"
  else if n = "pldi" then some "/conf/pldi/pldi"
  else if n = "icfp" then some "/conf/icfp/icfp"
  else none

/-- The number-scanning loop of processPacmPlJournal: the first hit with a
truthy number field assigns its lower-cased value and breaks; out-of-range
indices are skipped silently by optional chaining, so iterating the first
sent hits is exact. -/
def pacmNumberScan : List Hit → String
  | [] => ""
  | h :: rest =>
    match h.info.number with
    | some s => if s = "" then pacmNumberScan rest else jsToLower s
    | none => pacmNumberScan rest

/-- processPacmPlJournal(resp). -/
def processPacmPlJournal (resp : SearchResp) : String :=
  let number := pacmNumberScan (resp.hit.take resp.sent)
  jsOr (pacmPlConferenceMap number) "/journals/pacmpl/pacmpl"

/-- url.substring(url.indexOf("/rec/") + 4, url.lastIndexOf("/")). -/
def extractRecPath (url : String) : String :=
  jsSubstring url (jsIndexOfStr url "/rec/" + 4) (jsLastIndexOfChar url '/')

/-- The loop body of findBestMatch, by index h.  rem counts the
iterations left, sent - h, so the loop guard h < sent is rem > 0 and the
recursion is structural.  dblp_url is the currently adopted venue path
("" = none adopted yet) and ylc the previously accepted candidate year
(0 initially).  A none result models the TypeError thrown when
resp.hit[h] or its first author is missing, which aborts the whole
resolution via the outer catch. -/
def bmGo (hits : List Hit) (yn : Int) (h : Nat) (rem : Nat) (dblp_url : String) (ylc : Int) : Option String :=
  match rem with
  | 0 => some dblp_url
  | rem' + 1 =>
    match hits[h]? with
    | none => none
    | some hit =>
      if hit.info.type = "Informal Publications" then
        bmGo hits yn (h + 1) rem' dblp_url ylc
      else
        match hit.info.authors with
        | [] => none
        | _ :: _ =>
          let yf := hit.info.year
          if (yn - yf).natAbs ≤ 1 ∧ yf ≠ ylc then
            let durl := extractRecPath hit.info.url
            if yf = yn + 1 then bmGo hits yn (h + 1) rem' durl yf
            else if yf = yn then some durl
            else if dblp_url = "" then bmGo hits yn (h + 1) rem' durl yf
            else bmGo hits yn (h + 1) rem' dblp_url yf
          else bmGo hits yn (h + 1) rem' dblp_url ylc

/-- findBestMatch(resp, author, year).  The first author is extracted per
hit but takes no part in the decision; year goes through Number(). -/
def findBestMatch (resp : SearchResp) (_author year : String) : Option String :=
  bmGo resp.hit (jsNumber year) 0 resp.sent "" 0

/-- The same scan written structurally on the list of considered hits;
used to state and prove scan properties, and bridged to bmGo below. -/
def bmList (yn : Int) : List Hit → String → Int → Option String
  | [], dblp_url, _ => some dblp_url
  | hit :: rest, dblp_url, ylc =>
    if hit.info.type = "Informal Publications" then
      bmList yn rest dblp_url ylc
    else
      match hit.info.authors with
      | [] => none
      | _ :: _ =>
        let yf := hit.info.year
        if (yn - yf).natAbs ≤ 1 ∧ yf ≠ ylc then
          let durl := extractRecPath hit.info.url
          if yf = yn + 1 then bmList yn rest durl yf
          else if yf = yn then some durl
          else if dblp_url = "" then bmList yn rest durl yf
          else bmList yn rest dblp_url yf
        else bmList yn rest dblp_url ylc

/-- Which branch of the result-dispatch fires, with the looked-up record
(appended to the page only when some). -/
inductive RankAction where
  | nothing
  | viaAbbr (r : Option CCFEntry)
  | viaPacm (r : Option CCFEntry)
  | viaUrl (r : Option CCFEntry)
deriving DecidableEq, Repr

def RankAction.isViaAbbr : RankAction → Bool
  | RankAction.viaAbbr _ => true
  | _ => false

/-- The shared branch structure at the end of fetchFromDblpApi and in
fetchFromCache (textually duplicated in the source):
  if typeof dblp_url is undefined and flag is not false: abbreviation branch;
  else if dblp_url is the pacmpl umbrella path: alias branch;
  else if dblp_url truthy: plain url branch;
  else nothing. -/
def processResult (ccf : CCFData) (dblp_url : Option String) (flag : Bool) (resp : SearchResp) : RankAction :=
  if dblp_url.isNone && flag then
    let dblp_abbr := jsOrOpt (resp.hit.head? >>= (fun h => h.info.number))
                             (resp.hit.head? >>= (fun h => h.info.venue))
    match dblp_abbr with
    | some s => if decide (s ≠ "") && jsIsNaNStr s then RankAction.viaAbbr (getRankByAbbr ccf s)
                else RankAction.nothing
    | none => RankAction.nothing
  else if dblp_url = some "/journals/pacmpl/pacmpl" then
    RankAction.viaPacm (getRankByUrl ccf (processPacmPlJournal resp))
  else if (match dblp_url with | some s => decide (s ≠ "") | none => false) then
    RankAction.viaUrl (getRankByUrl ccf (dblp_url.getD ""))
  else RankAction.nothing

/-- The cached object: { dblp_url, resp, flag }. -/
structure CachedVal where
  dblp_url : Option String
  resp : SearchResp
  flag : Bool
deriving DecidableEq, Repr

/-- The parsed-response part of fetchFromDblpApi: resolve dblp_url, build
the value cached under the query url, and dispatch.  none covers the
paths where nothing is cached and nothing appended: zero total hits, or a
TypeError from a missing hit or author list (outer catch). -/
def resolveAndCache (ccf : CCFData) (resp : SearchResp) (author year : String) : Option (CachedVal × RankAction) :=
  if resp.total = 0 then none
  else
    let u0opt : Option String :=
      if resp.total = 1 then (resp.hit.head?).map (fun h => extractRecPath h.info.url)
      else findBestMatch resp author year
    match u0opt with
    | none => none
    | some u0 =>
      let u := jsOr ((getRankByUrl ccf u0).map (·.url)) u0
      some (⟨some u, resp, true⟩, processResult ccf (some u) true resp)

/-- fetchFromCache replays the same branch structure on the cached fields. -/
def fetchFromCacheAction (ccf : CCFData) (c : CachedVal) : RankAction :=
  processResult ccf c.dblp_url c.flag c.resp

/-! ## CacheService (src/js/services/CacheService.js) -/

/-- A stored cache item: { value, expires, timestamp }. -/
structure CacheItem (α : Type) where
  value : α
  expires : Nat
  timestamp : Nat
deriving DecidableEq, Repr

/-- localStorage: key-value pairs in key order. -/
abbrev CacheStore (α : Type) : Type := List (String × CacheItem α)

/-- localStorage.getItem. -/
def lsGet {α : Type} (st : CacheStore α) (k : String) : Option (CacheItem α) :=
  (List.find? (fun e => e.1 == k) st).map (·.2)

/-- localStorage.setItem: overwrite in place, else append. -/
def lsSet {α : Type} : CacheStore α → String → CacheItem α → CacheStore α
  | [], k, it => [(k, it)]
  | e :: rest, k, it => if e.1 = k then (k, it) :: rest else e :: lsSet rest k it

/-- localStorage.removeItem: drop the (unique) entry with that key. -/
def lsRemove {α : Type} : CacheStore α → String → CacheStore α
  | [], _ => []
  | e :: rest, k => if e.1 = k then rest else e :: lsRemove rest k

/-- The constructor-set configuration of CacheService. -/
structure CacheCfg where
  expiresAfter : Nat
  keyPfx : String
  maxCacheSize : Nat
deriving DecidableEq, Repr

/-- The singleton apiCache configuration: 24h TTL, 1000 entries. -/
def apiCacheCfg : CacheCfg := ⟨86400000, "CCFrank4dblp_", 1000⟩

/-- First pass of _cleanup, the index loop: removes expired prefixed
entries on sight and collects (key, expires) for surviving prefixed
entries with a truthy expires field.  In the source the removal happens
during index iteration, so the element that slides into the removed slot
is passed over by the i++ that follows; structurally that keeps the next
element unexamined and uncollected. -/
def cleanupScan {α : Type} (cfg : CacheCfg) (now : Nat) : CacheStore α → CacheStore α × List (String × Nat)
  | [] => ([], [])
  | e :: rest =>
    if jsStartsWith e.1 cfg.keyPfx then
      if e.2.expires ≠ 0 then
        if now > e.2.expires then
          match rest with
          | [] => ([], [])
          | e2 :: rest2 =>
            let r := cleanupScan cfg now rest2
            (e2 :: r.1, r.2)
        else
          let r := cleanupScan cfg now rest
          (e :: r.1, (e.1, e.2.expires) :: r.2)
      else
        let r := cleanupScan cfg now rest
        (e :: r.1, r.2)
    else
      let r := cleanupScan cfg now rest
      (e :: r.1, r.2)

/-- Stable insertion step for the expires sort (Array.prototype.sort with
comparator a.expires - b.expires; stable per ES2019). -/
def insertByExp (x : String × Nat) : List (String × Nat) → List (String × Nat)
  | [] => [x]
  | y :: ys => if x.2 ≤ y.2 then x :: y :: ys else y :: insertByExp x ys

/-- keys.sort((a, b) => a.expires - b.expires). -/
def sortByExpires (l : List (String × Nat)) : List (String × Nat) :=
  l.foldr insertByExp []

/-- CacheService._cleanup: remove expired entries, then if more than
maxCacheSize survive, remove the soonest-expiring surplus. -/
def cleanup {α : Type} (cfg : CacheCfg) (now : Nat) (st : CacheStore α) : CacheStore α :=
  let r := cleanupScan cfg now st
  if r.2.length > cfg.maxCacheSize then
    let toDelete := (sortByExpires r.2).take (r.2.length - cfg.maxCacheSize)
    toDelete.foldl (fun s kv => lsRemove s kv.1) r.1
  else r.1

/-- CacheService.clearAll: collect every prefixed key, then remove each. -/
def clearAll {α : Type} (cfg : CacheCfg) (st : CacheStore α) : CacheStore α :=
  let ks := (st.filter (fun e => jsStartsWith e.1 cfg.keyPfx)).map Prod.fst
  ks.foldl (fun s k => lsRemove s k) st

/-- CacheService.clearExpired: collect every prefixed key whose item has a
truthy expires in the past, then remove each. -/
def clearExpired {α : Type} (cfg : CacheCfg) (now : Nat) (st : CacheStore α) : CacheStore α :=
  let ks := (st.filter (fun e =>
    jsStartsWith e.1 cfg.keyPfx && decide (e.2.expires ≠ 0) && decide (now > e.2.expires))).map Prod.fst
  ks.foldl (fun s k => lsRemove s k) st

/-- CacheService.setItem(key, value): cleanup, then write the item with
expires = now + TTL.  fail1 and fail2 say whether the first and the
retried low-level write throw the quota-exceeded exception; on fail1 the
cache clears all its entries and retries exactly once, and a failing
retry reports false without raising. -/
def setItem {α : Type} (cfg : CacheCfg) (fail1 fail2 : Bool) (now : Nat) (st : CacheStore α) (key : String) (v : α) : Bool × CacheStore α :=
  let st1 := cleanup cfg now st
  let pk := cfg.keyPfx ++ key
  let item : CacheItem α := ⟨v, now + cfg.expiresAfter, now⟩
  if fail1 then
    let st2 := clearAll cfg st1
    if fail2 then (false, st2)
    else (true, lsSet st2 pk item)
  else (true, lsSet st1 pk item)

/-- CacheService.getItem(key): null when absent or the expires field is
falsy; when now is strictly past expires the entry is deleted and null
returned; otherwise the stored value. -/
def getItem {α : Type} (cfg : CacheCfg) (now : Nat) (st : CacheStore α) (key : String) : Option α × CacheStore α :=
  let pk := cfg.keyPfx ++ key
  match lsGet st pk with
  | none => (none, st)
  | some item =>
    if item.expires = 0 then (none, st)
    else if now > item.expires then (none, lsRemove st pk)
    else (some item.value, st)

/-- The entry that insertion i of the schedules below writes. -/
def entryAt {α : Type} (cfg : CacheCfg) (ks : Nat → String) (vs : Nat → α) (t : Nat → Nat) (i : Nat) : String × CacheItem α :=
  (cfg.keyPfx ++ ks i, ⟨vs i, t i + cfg.expiresAfter, t i⟩)

/-- n successful setItem calls from the empty store: call i uses key ks i,
value vs i, at time t i. -/
def runInserts {α : Type} (cfg : CacheCfg) (ks : Nat → String) (vs : Nat → α) (t : Nat → Nat) : Nat → CacheStore α
  | 0 => []
  | n + 1 => (setItem cfg false false (t n) (runInserts cfg ks vs t n) (ks n) (vs n)).2

/-- Unary keys for the concrete capacity scenario: i letters a. -/
def uKeys (i : Nat) : String := String.mk (List.replicate i 'a')

/-! ## Concrete scenario data used by the claim theorems -/

/-- The P5 scenario: three hits with years 2021, 2020, 2019 and record
URLs ending /p/a19, /p/b20, /p/c21, in that order. -/
def p5Resp : SearchResp := ⟨3, 3,
  [⟨⟨"", ["x"], 2021, "d/rec/p/a19/e", none, none⟩⟩,
   ⟨⟨"", ["x"], 2020, "d/rec/p/b20/e", none, none⟩⟩,
   ⟨⟨"", ["x"], 2019, "d/rec/p/c21/e", none, none⟩⟩]⟩

/-- The P6 scenario: first hit informal with target year (and no author
list, showing the skip precedes the author read), second hit type ""
with target year. -/
def p6Resp : SearchResp := ⟨2, 2,
  [⟨⟨"Informal Publications", [], 2020, "d/rec/p/x20/e", none, none⟩⟩,
   ⟨⟨"", ["b"], 2020, "d/rec/p/y20/e", none, none⟩⟩]⟩

/-- A multi-hit response with no hit inside the year window of 2020. -/
def c10Resp : SearchResp := ⟨2, 2,
  [⟨⟨"", ["x"], 1990, "d/rec/p/q90/e", none, none⟩⟩,
   ⟨⟨"", ["x"], 1991, "d/rec/p/r91/e", none, none⟩⟩]⟩

/-- A table whose only record sits under a venue path ending in a digit. -/
def c2St : CCFData := addEntry emptyCCF "A" "X" "X" "/conf/x/x1" "conference"

/-- Two conference records whose abbreviation keys share the proper
prefix AAA, inserted AAAB before AAAC. -/
def c5St : CCFData :=
  addEntry (addEntry emptyCCF "B" "AAAB" "first" "/conf/ab/ab" "conference")
    "A" "AAAC" "second" "/conf/ac/ac" "conference"

/-- A store holding one fresh and one already-expired prefixed entry. -/
def c7St : CacheStore Nat :=
  [("CCFrank4dblp_a", ⟨0, 10, 0⟩), ("CCFrank4dblp_b", ⟨1, 1, 0⟩)]

/-- A store with one prefixed and one foreign entry, for the quota path. -/
def c6St : CacheStore Nat := [("CCFrank4dblp_old", ⟨7, 50, 1⟩), ("zzz", ⟨9, 50, 1⟩)]

/-- PACM PL scenarios: no number on the first hit, issue oopsla2 on the
second; an issue absent from the alias table; no issue at all. -/
def pacmResp1 : SearchResp := ⟨2, 2,
  [⟨⟨"", ["x"], 2020, "u", none, none⟩⟩,
   ⟨⟨"", ["x"], 2020, "u", some "oopsla2", none⟩⟩]⟩

def pacmResp2 : SearchResp := ⟨1, 1, [⟨⟨"", ["x"], 2020, "u", some "xyz", none⟩⟩]⟩

def pacmResp3 : SearchResp := ⟨1, 1, [⟨⟨"", ["x"], 2020, "u", none, none⟩⟩]⟩

/-! ## Theorems -/

/-- Cleanup of an empty store is empty. -/
theorem cleanup_nil {α : Type} (cfg : CacheCfg) (now : Nat) :
    cleanup cfg now ([] : CacheStore α) = [] := by
  simp [cleanup, cleanupScan]

/-- C4 counterexample: an entry inserted at time 0 is still returned by a
read at exactly TTL = 86400000, where the claim says it is treated as
expired and absent. -/
theorem c4_counterexample :
    (getItem apiCacheCfg 86400000
      ((setItem apiCacheCfg false false 0 ([] : CacheStore Nat) "k" 42).2) "k").1 = some 42 := by
  decide

/-- C4 amended: an entry written by setItem at time t is returned by
getItem for any read at time tr with tr - t <= TTL (in particular at
exactly TTL), and is expired, deleted and absent exactly when
tr - t > TTL. -/
theorem c4_ttl_boundary {α : Type} (t tr : Nat) (k : String) (v : α)
    (st : CacheStore α) (hst : st = (setItem apiCacheCfg false false t [] k v).2) :
    (tr ≤ t + 86400000 → getItem apiCacheCfg tr st k = (some v, st)) ∧
    (t + 86400000 < tr → getItem apiCacheCfg tr st k = (none, [])) := by
  have hset : st = [("CCFrank4dblp_" ++ k, ⟨v, t + 86400000, t⟩)] := by
    rw [hst]
    simp [setItem, cleanup_nil, lsSet, apiCacheCfg]
  subst hset
  constructor
  · intro hle
    simp [getItem, lsGet, apiCacheCfg, List.find?]
    omega
  · intro hgt
    simp [getItem, lsGet, lsRemove, apiCacheCfg, List.find?]
    omega

/-- C4 witness: the amended TTL boundary at t = 0, read times TTL and
TTL + 1, key k, value 42. -/
theorem c4_ttl_boundary_witness :
    (86400000 ≤ 0 + 86400000 →
      getItem apiCacheCfg 86400000 [("CCFrank4dblp_k", ⟨(42 : Nat), 86400000, 0⟩)] "k"
        = (some 42, [("CCFrank4dblp_k", ⟨(42 : Nat), 86400000, 0⟩)])) ∧
    (0 + 86400000 < 86400000 →
      getItem apiCacheCfg 86400000 [("CCFrank4dblp_k", ⟨(42 : Nat), 86400000, 0⟩)] "k"
        = (none, [])) := by
  exact c4_ttl_boundary 0 86400000 "k" 42 _ (by decide)

/-- C2 counterexample: with the record stored under venue path
/conf/x/x1, lookup of the path with year suffix 2023 appended finds the
record while lookup of the stored path itself does not, so the two are
not the same, and the stored key is visibly unstripped. -/
theorem c2_counterexample :
    (getRankByUrl c2St "/conf/x/x12023").isSome = true ∧
    getRankByUrl c2St "/conf/x/x1" = none ∧
    (assocGet c2St.conferences "/conf/x/x1").isSome = true := by
  decide

/-- C5 counterexample: for query TOC there is no exact match, and the
journal map holds the key TOCS which starts with TOC and is strictly
longer, yet getRankByAbbr returns absent: the fallback never reaches
journal-table keys. -/
theorem c5_counterexample :
    getRankByAbbr ccfInit "TOC" = none ∧
    assocGet ccfInit.conferences "TOC" = none ∧
    assocGet ccfInit.journals "TOC" = none ∧
    jsStartsWith "TOCS" "TOC" = true ∧
    "TOCS" ≠ "TOC" ∧
    (assocGet ccfInit.journals "TOCS").isSome = true := by
  decide

/-- C7 counterexample: a successful get of key a at time 5 leaves the
store untouched, including the other prefixed entry whose expiry 1 lies
in the past. -/
theorem c7_counterexample :
    (getItem apiCacheCfg 5 c7St "a").1 = some 0 ∧
    (getItem apiCacheCfg 5 c7St "a").2 = c7St ∧
    ((getItem apiCacheCfg 5 c7St "a").2.any
      (fun e => jsStartsWith e.1 "CCFrank4dblp_" && decide (e.2.expires < 5))) = true := by
  decide

/-- The fuzzy fallback loop returns the first matching entry, find?-style. -/
theorem fuzzyFind_eq_find? (m : List (String × CCFEntry)) (up : String) :
    fuzzyFind m up =
      (m.find? (fun kv => jsStartsWith kv.1 up && decide (kv.1 ≠ up))).map Prod.snd := by
  induction m with
  | nil => rfl
  | cons e rest ih =>
    obtain ⟨k, v⟩ := e
    rw [fuzzyFind, List.find?_cons]
    by_cases h1 : jsStartsWith k up = true
    · by_cases h2 : k = up
      · simp [h1, h2, ih]
      · simp [h1, h2]
    · simp [h1, ih]

/-- C5 amended: when the upper-cased query has no exact match in either
mapping, getRankByAbbr returns the record under the first key of the
conference mapping, in insertion order, that starts with the normalized
abbreviation and differs from it (hence is strictly longer), and absent
when no conference key qualifies; journal keys are never examined by the
fallback.  Concretely, for query AAA against records inserted under AAAB
then AAAC, the AAAB record wins by insertion order, not by any notion of
best match. -/
theorem c5_conference_only_fallback :
    (∀ (st : CCFData) (abbr : String), abbr ≠ "" →
      assocGet st.conferences (jsToUpper abbr) = none →
      assocGet st.journals (jsToUpper abbr) = none →
      getRankByAbbr st abbr =
        (st.conferences.find? (fun kv =>
          jsStartsWith kv.1 (jsToUpper abbr) && decide (kv.1 ≠ jsToUpper abbr))).map Prod.snd) ∧
    getRankByAbbr c5St "AAA" = some ⟨"B", "AAAB", "first", "/conf/ab/ab", "conference"⟩ := by
  constructor
  · intro st abbr hne hconf hjour
    rw [getRankByAbbr, if_neg hne]
    simp only [hconf, hjour, getRankByAbbr.jsOrOptE]
    exact fuzzyFind_eq_find? st.conferences (jsToUpper abbr)
  · decide

/-- C5 witness: the fallback characterization applied to the shipped
table and the query FA, whose hypotheses hold by computation. -/
theorem c5_conference_only_fallback_witness :
    getRankByAbbr ccfInit "FA" =
      (ccfInit.conferences.find? (fun kv =>
        jsStartsWith kv.1 (jsToUpper "FA") && decide (kv.1 ≠ jsToUpper "FA"))).map Prod.snd := by
  exact c5_conference_only_fallback.1 ccfInit "FA" (by decide) (by decide) (by decide)

/-- The number scan ignores hits with an absent or empty number field and
returns the lower-cased number of the first hit carrying one. -/
theorem pacmNumberScan_first (L1 L2 : List Hit) (hit : Hit) (s : String)
    (hskip : ∀ h ∈ L1, h.info.number = none ∨ h.info.number = some "")
    (hnum : hit.info.number = some s) (hne : s ≠ "") :
    pacmNumberScan (L1 ++ hit :: L2) = jsToLower s := by
  induction L1 with
  | nil =>
    simp only [List.nil_append, pacmNumberScan, hnum]
    rw [if_neg hne]
  | cons e rest ih =>
    have he := hskip e (List.mem_cons_self e rest)
    have hrest : ∀ h ∈ rest, h.info.number = none ∨ h.info.number = some "" :=
      fun h hm => hskip h (List.mem_cons_of_mem e hm)
    rcases he with he | he <;>
      simp [pacmNumberScan, he, ih hrest]

/-- C8: when the resolved venue path is the umbrella journal path, the
dispatch re-derives the venue through processPacmPlJournal and looks that
up; the scan takes the first present (truthy) issue number among the sent
hits, lower-cases it and maps it through the fixed alias table, falling
back to the umbrella path itself.  Concretely, issue oopsla2 yields
/conf/oopsla/oopsla, an unmapped issue yields the umbrella path, and so
does a response with no issue field at all. -/
theorem c8_pacmpl_alias :
    (∀ (ccf : CCFData) (flag : Bool) (resp : SearchResp),
      processResult ccf (some "/journals/pacmpl/pacmpl") flag resp =
        RankAction.viaPacm (getRankByUrl ccf (processPacmPlJournal resp))) ∧
    (∀ (resp : SearchResp) (L1 L2 : List Hit) (hit : Hit) (s : String),
      resp.hit.take resp.sent = L1 ++ hit :: L2 →
      (∀ h ∈ L1, h.info.number = none ∨ h.info.number = some "") →
      hit.info.number = some s → s ≠ "" →
      processPacmPlJournal resp =
        jsOr (pacmPlConferenceMap (jsToLower s)) "/journals/pacmpl/pacmpl") ∧
    processPacmPlJournal pacmResp1 = "/conf/oopsla/oopsla" ∧
    processPacmPlJournal pacmResp2 = "/journals/pacmpl/pacmpl" ∧
    processPacmPlJournal pacmResp3 = "/journals/pacmpl/pacmpl" := by
  refine ⟨?_, ?_, by decide, by decide, by decide⟩
  · intro ccf flag resp
    simp [processResult]
  · intro resp L1 L2 hit s htake hskip hnum hne
    rw [processPacmPlJournal, htake, pacmNumberScan_first L1 L2 hit s hskip hnum hne]

/-- C8 witness: the scan characterization applied to the oopsla2
scenario, every hypothesis discharged by computation. -/
theorem c8_pacmpl_alias_witness :
    processPacmPlJournal pacmResp1 =
      jsOr (pacmPlConferenceMap (jsToLower "oopsla2")) "/journals/pacmpl/pacmpl" := by
  exact c8_pacmpl_alias.2.1 pacmResp1 [⟨⟨"", ["x"], 2020, "u", none, none⟩⟩] []
    ⟨⟨"", ["x"], 2020, "u", some "oopsla2", none⟩⟩ "oopsla2"
    (by decide) (by decide) (by decide) (by decide)

/-- C1: the tie-break policy of findBestMatch, per accepted candidate in
encounter order.  With hit at index h accepted (not informal, author list
present, |target - year| <= 1, year different from the previous accepted
candidate year): an exact-year hit is adopted and the scan stops at once;
a year = target + 1 hit is tentatively adopted and the scan continues; an
earlier-year hit is adopted only when nothing is adopted yet, and the
scan continues.  On three hits with years 2021, 2020, 2019 and record
URLs ending /p/a19, /p/b20, /p/c21 at target year "2020", the result is
the path derived from /p/b20. -/
theorem c1_tiebreak_policy :
    (∀ (hits : List Hit) (yn : Int) (h rem : Nat) (u : String) (ylc : Int) (hit : Hit),
      hits[h]? = some hit →
      hit.info.type ≠ "Informal Publications" → hit.info.authors ≠ [] →
      (yn - hit.info.year).natAbs ≤ 1 → hit.info.year ≠ ylc →
      hit.info.year = yn →
      bmGo hits yn h (rem + 1) u ylc = some (extractRecPath hit.info.url)) ∧
    (∀ (hits : List Hit) (yn : Int) (h rem : Nat) (u : String) (ylc : Int) (hit : Hit),
      hits[h]? = some hit →
      hit.info.type ≠ "Informal Publications" → hit.info.authors ≠ [] →
      (yn - hit.info.year).natAbs ≤ 1 → hit.info.year ≠ ylc →
      hit.info.year = yn + 1 →
      bmGo hits yn h (rem + 1) u ylc =
        bmGo hits yn (h + 1) rem (extractRecPath hit.info.url) hit.info.year) ∧
    (∀ (hits : List Hit) (yn : Int) (h rem : Nat) (u : String) (ylc : Int) (hit : Hit),
      hits[h]? = some hit →
      hit.info.type ≠ "Informal Publications" → hit.info.authors ≠ [] →
      (yn - hit.info.year).natAbs ≤ 1 → hit.info.year ≠ ylc →
      hit.info.year = yn - 1 →
      bmGo hits yn h (rem + 1) u ylc =
        bmGo hits yn (h + 1) rem
          (if u = "" then extractRecPath hit.info.url else u) hit.info.year) ∧
    findBestMatch p5Resp "author" "2020" = some "/p/b20" := by
  refine ⟨?_, ?_, ?_, by decide⟩
  · intro hits yn h rem u ylc hit hidx htype hauth hwin hdup hyr
    obtain ⟨a, as, hcons⟩ := List.exists_cons_of_ne_nil hauth
    rw [bmGo, hidx]
    simp only [htype, if_neg, ite_false, hcons]
    rw [if_pos ⟨hwin, hdup⟩, if_neg (by omega : ¬hit.info.year = yn + 1), if_pos hyr]
  · intro hits yn h rem u ylc hit hidx htype hauth hwin hdup hyr
    obtain ⟨a, as, hcons⟩ := List.exists_cons_of_ne_nil hauth
    rw [bmGo, hidx]
    simp only [htype, if_neg, ite_false, hcons]
    rw [if_pos ⟨hwin, hdup⟩, if_pos hyr]
  · intro hits yn h rem u ylc hit hidx htype hauth hwin hdup hyr
    obtain ⟨a, as, hcons⟩ := List.exists_cons_of_ne_nil hauth
    rw [bmGo, hidx]
    simp only [htype, if_neg, ite_false, hcons]
    rw [if_pos ⟨hwin, hdup⟩, if_neg (by omega : ¬hit.info.year = yn + 1),
      if_neg (by omega : ¬hit.info.year = yn)]
    by_cases hu : u = ""
    · rw [if_pos hu, if_pos hu]
    · rw [if_neg hu, if_neg hu]

/-- C1 witness: the exact-year short-circuit applied at index 1 of the P5
hits, with the tentatively adopted /p/a19 path pending. -/
theorem c1_tiebreak_policy_witness :
    bmGo p5Resp.hit 2020 1 2 "/p/a19" 2021 =
      some (extractRecPath "d/rec/p/b20/e") := by
  exact c1_tiebreak_policy.1 p5Resp.hit 2020 1 1 "/p/a19" 2021
    ⟨⟨"", ["x"], 2020, "d/rec/p/b20/e", none, none⟩⟩
    (by decide) (by decide) (by decide) (by decide) (by decide) (by decide)

/-- The indexed loop equals the structural scan over the considered
hits when the sent bound stays within the hit list. -/
theorem bmGo_eq_bmList (hits : List Hit) (yn : Int) :
    ∀ (rem h : Nat) (u : String) (ylc : Int), h + rem ≤ hits.length →
      bmGo hits yn h rem u ylc = bmList yn ((hits.drop h).take rem) u ylc := by
  intro rem
  induction rem with
  | zero =>
    intro h u ylc _
    simp [bmGo, bmList]
  | succ rem ih =>
    intro h u ylc hlen
    have hh : h < hits.length := by omega
    have hidx : hits[h]? = some hits[h] := List.getElem?_eq_getElem hh
    have hdrop : hits.drop h = hits[h] :: hits.drop (h + 1) := List.drop_eq_getElem_cons hh
    rw [hdrop, List.take_succ_cons]
    simp only [bmGo, bmList, hidx]
    have ihlen : h + 1 + rem ≤ hits.length := by omega
    by_cases ht : hits[h].info.type = "Informal Publications"
    · rw [if_pos ht, if_pos ht]
      exact ih (h + 1) u ylc ihlen
    · rw [if_neg ht, if_neg ht]
      cases hcons : hits[h].info.authors with
      | nil => rfl
      | cons a as =>
        simp only [hcons]
        by_cases hacc : (yn - hits[h].info.year).natAbs ≤ 1 ∧ hits[h].info.year ≠ ylc
        · rw [if_pos hacc, if_pos hacc]
          by_cases h1 : hits[h].info.year = yn + 1
          · rw [if_pos h1, if_pos h1]
            exact ih (h + 1) _ _ ihlen
          · rw [if_neg h1, if_neg h1]
            by_cases h2 : hits[h].info.year = yn
            · rw [if_pos h2, if_pos h2]
            · rw [if_neg h2, if_neg h2]
              by_cases h3 : u = ""
              · rw [if_pos h3, if_pos h3]
                exact ih (h + 1) _ _ ihlen
              · rw [if_neg h3, if_neg h3]
                exact ih (h + 1) _ _ ihlen
        · rw [if_neg hacc, if_neg hacc]
          exact ih (h + 1) u ylc ihlen

/-- C9: dropping the informal hits from the considered list leaves the
scan result unchanged (the skip fires before the author read and before
any state update), the indexed loop coincides with the structural scan
over the first sent hits, and the P6 scenario resolves to the second
hit's path even though the first, informal one has the exact target year
and no author list. -/
theorem c9_informal_skip :
    (∀ (yn : Int) (l : List Hit) (u : String) (ylc : Int),
      bmList yn (l.filter (fun hit => hit.info.type != "Informal Publications")) u ylc =
        bmList yn l u ylc) ∧
    (∀ (resp : SearchResp) (author year : String), resp.sent ≤ resp.hit.length →
      findBestMatch resp author year = bmList (jsNumber year) (resp.hit.take resp.sent) "" 0) ∧
    findBestMatch p6Resp "a" "2020" = some "/p/y20" := by
  refine ⟨?_, ?_, by decide⟩
  · intro yn l
    induction l with
    | nil => intro u ylc; rfl
    | cons hit rest ih =>
      intro u ylc
      by_cases ht : hit.info.type = "Informal Publications"
      · rw [List.filter_cons_of_neg (by simp [ht])]
        rw [show bmList yn (hit :: rest) u ylc = bmList yn rest u ylc by
          simp only [bmList]; rw [if_pos ht]]
        exact ih u ylc
      · rw [List.filter_cons_of_pos (by simp [ht])]
        simp only [bmList]
        rw [if_neg ht, if_neg ht]
        cases hcons : hit.info.authors with
        | nil => rfl
        | cons a as =>
          simp only [hcons]
          by_cases hacc : (yn - hit.info.year).natAbs ≤ 1 ∧ hit.info.year ≠ ylc
          · rw [if_pos hacc, if_pos hacc]
            by_cases h1 : hit.info.year = yn + 1
            · rw [if_pos h1, if_pos h1]; exact ih _ _
            · rw [if_neg h1, if_neg h1]
              by_cases h2 : hit.info.year = yn
              · rw [if_pos h2, if_pos h2]
              · rw [if_neg h2, if_neg h2]
                by_cases h3 : u = ""
                · rw [if_pos h3, if_pos h3]; exact ih _ _
                · rw [if_neg h3, if_neg h3]; exact ih _ _
          · rw [if_neg hacc, if_neg hacc]; exact ih _ _
  · intro resp author year hsent
    rw [findBestMatch]
    rw [bmGo_eq_bmList resp.hit (jsNumber year) resp.sent 0 "" 0 (by omega)]
    rw [List.drop_zero]

/-- C9 witness: the loop-to-scan identity applied to the P6 scenario. -/
theorem c9_informal_skip_witness :
    findBestMatch p6Resp "a" "2020" = bmList (jsNumber "2020") (p6Resp.hit.take p6Resp.sent) "" 0 := by
  exact c9_informal_skip.2.1 p6Resp "a" "2020" (by decide)

/-- Lookup of the empty url short-circuits to null. -/
theorem getRankByUrl_empty (ccf : CCFData) : getRankByUrl ccf "" = none := by
  simp [getRankByUrl]

/-- With a defined dblp_url the dispatch never enters the abbreviation
branch, whatever the flag, the table and the response. -/
theorem processResult_some_not_abbr (ccf : CCFData) (u : String) (flag : Bool) (resp : SearchResp) :
    (processResult ccf (some u) flag resp).isViaAbbr = false := by
  rw [processResult]
  rw [if_neg (by simp : ¬((some u : Option String).isNone && flag) = true)]
  split_ifs <;> rfl

/-- C10: whenever fetchFromDblpApi reaches the caching step, the resolved
dblp_url is a defined string (never undefined), the abbreviation branch
is not taken there, replaying the written cache entry through
fetchFromCache cannot take it either, and a multi-hit response whose scan
adopts no candidate (empty path) produces no rank annotation at all. -/
theorem c10_abbr_branch_unreachable :
    ∀ (ccf : CCFData) (resp : SearchResp) (author year : String) (cv : CachedVal) (act : RankAction),
      resolveAndCache ccf resp author year = some (cv, act) →
      cv.dblp_url.isSome = true ∧
      act.isViaAbbr = false ∧
      (fetchFromCacheAction ccf cv).isViaAbbr = false ∧
      (2 ≤ resp.total → findBestMatch resp author year = some "" → act = RankAction.nothing) := by
  intro ccf resp author year cv act hres
  simp only [resolveAndCache] at hres
  by_cases h0 : resp.total = 0
  · rw [if_pos h0] at hres
    exact absurd hres (by simp)
  · rw [if_neg h0] at hres
    rcases hu : (if resp.total = 1 then (resp.hit.head?).map (fun h => extractRecPath h.info.url)
                 else findBestMatch resp author year) with _ | u0
    · rw [hu] at hres
      exact absurd hres (by simp)
    · rw [hu] at hres
      simp only [Option.some.injEq, Prod.mk.injEq] at hres
      obtain ⟨hcv, hact⟩ := hres
      subst hcv
      subst hact
      refine ⟨rfl, processResult_some_not_abbr _ _ _ _, ?_, ?_⟩
      · exact processResult_some_not_abbr _ _ _ _
      · intro h2 hfb
        have h1 : ¬resp.total = 1 := by omega
        rw [if_neg h1, hfb] at hu
        have hu0 : u0 = "" := by
          have := Option.some.inj hu
          exact this.symm
        subst hu0
        rw [getRankByUrl_empty]
        rw [processResult]
        rw [if_neg (by simp : ¬((some (jsOr ((none : Option CCFEntry).map (·.url)) "")).isNone
          && true) = true)]
        rw [if_neg (by decide : ¬(some (jsOr ((none : Option CCFEntry).map (·.url)) "") : Option String)
          = some "/journals/pacmpl/pacmpl")]
        rw [if_neg (by decide)]

/-- C10 witness: the multi-hit response with both years outside the
window of 2020 resolves to the empty path, is cached as that defined
string, and yields no annotation. -/
theorem c10_abbr_branch_unreachable_witness :
    (⟨some "", c10Resp, true⟩ : CachedVal).dblp_url.isSome = true ∧
    (RankAction.nothing).isViaAbbr = false ∧
    (fetchFromCacheAction ccfInit ⟨some "", c10Resp, true⟩).isViaAbbr = false ∧
    (2 ≤ c10Resp.total → findBestMatch c10Resp "a" "2020" = some "" →
      RankAction.nothing = RankAction.nothing) := by
  exact c10_abbr_branch_unreachable ccfInit c10Resp "a" "2020"
    ⟨some "", c10Resp, true⟩ RankAction.nothing (by decide)

/-- Folding removals over keys absent from the head passes the head
through untouched. -/
theorem foldlRemove_cons {α : Type} (e : String × CacheItem α) (st : CacheStore α)
    (ks : List String) (hk : ∀ k ∈ ks, k ≠ e.1) :
    ks.foldl (fun s k => lsRemove s k) (e :: st) =
      e :: ks.foldl (fun s k => lsRemove s k) st := by
  induction ks generalizing st with
  | nil => rfl
  | cons k ks ih =>
    have hke : k ≠ e.1 := hk k (List.mem_cons_self k ks)
    have hks : ∀ k' ∈ ks, k' ≠ e.1 := fun k' hm => hk k' (List.mem_cons_of_mem k hm)
    simp only [List.foldl_cons]
    rw [show lsRemove (e :: st) k = e :: lsRemove st k by
      rw [lsRemove]; exact if_neg (fun h => hke h.symm)]
    exact ih (lsRemove st k) hks

/-- Collect-then-remove over the keys of the entries satisfying p equals
filtering them out, on stores without duplicate keys (localStorage never
holds any). -/
theorem removeFiltered_eq_filter {α : Type} (p : String × CacheItem α → Bool) :
    ∀ (st : CacheStore α), (st.map Prod.fst).Nodup →
      ((st.filter p).map Prod.fst).foldl (fun s k => lsRemove s k) st =
        st.filter (fun e => !p e) := by
  intro st
  induction st with
  | nil => intro _; rfl
  | cons e rest ih =>
    intro hnd
    rw [List.map_cons, List.nodup_cons] at hnd
    obtain ⟨hnotin, hndrest⟩ := hnd
    by_cases hp : p e = true
    · rw [List.filter_cons_of_pos hp, List.map_cons, List.foldl_cons]
      rw [show lsRemove (e :: rest) e.1 = rest by rw [lsRemove]; exact if_pos rfl]
      rw [ih hndrest, List.filter_cons_of_neg (by simp [hp])]
    · rw [List.filter_cons_of_neg (by simpa using hp)]
      have hk : ∀ k ∈ (rest.filter p).map Prod.fst, k ≠ e.1 := by
        intro k hm
        obtain ⟨x, hx, hxk⟩ := List.mem_map.1 hm
        have hxr : x ∈ rest := List.mem_of_mem_filter hx
        intro hke
        exact hnotin (hke ▸ hxk ▸ List.mem_map_of_mem Prod.fst hxr)
      rw [foldlRemove_cons e rest _ hk, ih hndrest]
      rw [List.filter_cons_of_pos (by simpa using hp)]

/-- clearExpired removes exactly the prefixed entries with a truthy
expiry in the past. -/
theorem clearExpired_eq_filter {α : Type} (cfg : CacheCfg) (now : Nat) (st : CacheStore α)
    (hnd : (st.map Prod.fst).Nodup) :
    clearExpired cfg now st =
      st.filter (fun e => !(jsStartsWith e.1 cfg.keyPfx && decide (e.2.expires ≠ 0) &&
        decide (now > e.2.expires))) := by
  exact removeFiltered_eq_filter _ st hnd

/-- clearAll removes exactly the prefixed entries. -/
theorem clearAll_eq_filter {α : Type} (cfg : CacheCfg) (st : CacheStore α)
    (hnd : (st.map Prod.fst).Nodup) :
    clearAll cfg st = st.filter (fun e => !jsStartsWith e.1 cfg.keyPfx) := by
  exact removeFiltered_eq_filter _ st hnd

/-- C7 amended: after clearExpired completes, no prefixed entry with a
set (truthy) expiry field remains expired; after a successful get, the
accessed entry itself is unexpired and the store is untouched — but
other, unexamined entries may stay expired, so the claim holds for
clearExpired and only for the accessed entry on a successful get. -/
theorem c7_expiry_invariant :
    (∀ (cfg : CacheCfg) (now : Nat) (st : CacheStore Nat),
      (st.map Prod.fst).Nodup →
      ∀ e ∈ clearExpired cfg now st,
        jsStartsWith e.1 cfg.keyPfx = true → e.2.expires ≠ 0 → ¬ e.2.expires < now) ∧
    (∀ (cfg : CacheCfg) (now : Nat) (st : CacheStore Nat) (k : String) (v : Nat),
      (getItem cfg now st k).1 = some v →
      (getItem cfg now st k).2 = st ∧
      ∃ it, lsGet st (cfg.keyPfx ++ k) = some it ∧ it.value = v ∧ ¬ it.expires < now) := by
  constructor
  · intro cfg now st hnd e he hpfx hexp hlt
    rw [clearExpired_eq_filter cfg now st hnd] at he
    have hf := List.of_mem_filter he
    simp [hpfx, hexp, hlt] at hf
  · intro cfg now st k v hget
    rcases hg : lsGet st (cfg.keyPfx ++ k) with _ | it
    · simp [getItem, hg] at hget
    · simp only [getItem, hg] at hget ⊢
      by_cases h0 : it.expires = 0
      · rw [if_pos h0] at hget
        exact absurd hget (by simp)
      · rw [if_neg h0] at hget ⊢
        by_cases hlt : now > it.expires
        · rw [if_pos hlt] at hget
          exact absurd hget (by simp)
        · rw [if_neg hlt] at hget ⊢
          refine ⟨rfl, it, rfl, Option.some.inj hget, fun hc => hlt hc⟩

/-- C7 witness: on the two-entry store, getting key a at time 5 succeeds,
leaves the store untouched, and the accessed entry is unexpired. -/
theorem c7_expiry_invariant_witness :
    (getItem apiCacheCfg 5 c7St "a").2 = c7St ∧
    lsGet c7St ("CCFrank4dblp_" ++ "a") = some ⟨0, 10, 0⟩ ∧ ¬ (10 : Nat) < 5 := by
  have h := c7_expiry_invariant.2 apiCacheCfg 5 c7St "a" 0 (by decide)
  exact ⟨h.1, by decide, by decide⟩

/-- Every character of a year-suffix match is a digit or the dash. -/
theorem yearSuffixMatch_chars (t : List Char) (h : yearSuffixMatch t = true) :
    ∀ c ∈ t, c.isDigit = true ∨ c = '-' := by
  rw [yearSuffixMatch] at h
  simp only [Bool.and_eq_true, Bool.or_eq_true] at h
  obtain ⟨hA, hR⟩ := h
  have hAall : ∀ c ∈ t.takeWhile (fun c => c.isDigit), c.isDigit = true := by
    intro c hc
    rw [yearDigits] at hA
    simp only [Bool.and_eq_true, List.all_eq_true] at hA
    exact hA.1.1 c hc
  intro c hc
  rw [← List.takeWhile_append_dropWhile (p := fun c => c.isDigit) (l := t)] at hc
  rcases List.mem_append.1 hc with hc | hc
  · exact Or.inl (hAall c hc)
  · rcases hRd : t.dropWhile (fun c => c.isDigit) with _ | ⟨r, B⟩
    · rw [hRd] at hc
      exact absurd hc (List.not_mem_nil c)
    · rw [hRd] at hc hR
      rcases hR with hR | hR
      · simp at hR
      · obtain ⟨hr, hB⟩ := hR
        have hrd : r = '-' := by simpa using hr
        rcases List.mem_cons.1 hc with hc | hc
        · exact Or.inr (hc.trans hrd)
        · rw [yearDigits] at hB
          simp only [Bool.and_eq_true, List.all_eq_true] at hB
          exact Or.inl (hB.1.1 c (by simpa using hc))

/-- The stripping scan passes over any character that is neither a digit
nor the dash, and everything before it. -/
theorem strip_through (l : Char) (hldig : l.isDigit = false) (hldash : l ≠ '-') :
    ∀ (Q R : List Char),
      stripYearSuffix (Q ++ l :: R) = Q ++ l :: stripYearSuffix R := by
  have hnomatch : ∀ (t : List Char), l ∈ t → yearSuffixMatch t = false := by
    intro t hmem
    cases hm : yearSuffixMatch t with
    | false => rfl
    | true =>
      rcases yearSuffixMatch_chars t hm l hmem with h | h
      · rw [hldig] at h
        exact absurd h (by simp)
      · exact absurd h hldash
  intro Q
  induction Q with
  | nil =>
    intro R
    rw [List.nil_append, stripYearSuffix,
      if_neg (by rw [hnomatch (l :: R) (List.mem_cons_self l R)]; simp), List.nil_append]
  | cons c Q ih =>
    intro R
    rw [List.cons_append, stripYearSuffix,
      if_neg (by
        rw [hnomatch (c :: (Q ++ l :: R)) (by simp)]
        simp),
      ih R, List.cons_append]

/-- A full year-suffix match strips to nothing. -/
theorem strip_of_match (Y : List Char) (h : yearSuffixMatch Y = true) :
    stripYearSuffix Y = [] := by
  cases Y with
  | nil => rfl
  | cons c rest => rw [stripYearSuffix, if_pos h]

/-- Setting a key makes it retrievable with that value. -/
theorem assocGet_assocSet_self {β : Type} (m : List (String × β)) (k : String) (v : β) :
    assocGet (assocSet m k v) k = some v := by
  induction m with
  | nil => simp [assocSet, assocGet, List.find?]
  | cons e rest ih =>
    by_cases he : e.1 = k
    · rw [assocSet, if_pos he]
      simp [assocGet, List.find?]
    · rw [assocSet, if_neg he]
      rw [assocGet, List.find?_cons, show (e.1 == k) = false by simpa using he]
      exact ih

/-- C2 amended: venue-path keys are stored unstripped (the record is
retrievable under the raw url key exactly as given to addEntry), and the
lookup-side stripping makes getRankByUrl insensitive to an appended year
suffix whenever the stored path itself ends in neither a digit nor a
dash; when it does not, both lookups resolve the same key and find a
record.  (The counterexample shows the insensitivity fails for paths
ending in a digit, and storage-side stripping does not happen.) -/
theorem c2_year_suffix_lookup :
    (∀ (st : CCFData) (rank abbr fullName P ty Y : String),
      P ≠ "" →
      (P.data.getLastD ' ').isDigit = false →
      P.data.getLastD ' ' ≠ '-' →
      yearSuffixMatch Y.data = true →
      getRankByUrl (addEntry st rank abbr fullName P ty) (P ++ Y) =
        getRankByUrl (addEntry st rank abbr fullName P ty) P ∧
      (getRankByUrl (addEntry st rank abbr fullName P ty) P).isSome = true) ∧
    (∀ (st : CCFData) (rank abbr fullName P : String),
      assocGet (addEntry st rank abbr fullName P "conference").conferences P =
        some ⟨rank, jsToUpper abbr, fullName, P, "conference"⟩) := by
  constructor
  · intro st rank abbr fullName P ty Y hPne hdig hdash hY
    rcases List.eq_nil_or_concat' P.data with hnil | ⟨Q, l, hQl⟩
    · exact absurd (String.ext (by simpa using hnil)) hPne
    · have hlD : P.data.getLastD ' ' = l := by
        rw [hQl, List.getLastD_concat]
      rw [hlD] at hdig hdash
      have hcleanP : cleanUrl P = P := by
        rw [cleanUrl, hQl, show Q ++ [l] = Q ++ l :: [] from rfl,
          strip_through l hdig hdash Q [], show stripYearSuffix [] = [] from rfl,
          show Q ++ l :: [] = Q ++ [l] from rfl, ← hQl]
      have hcleanPY : cleanUrl (P ++ Y) = P := by
        rw [cleanUrl, String.data_append, hQl,
          show (Q ++ [l]) ++ Y.data = Q ++ l :: Y.data by simp,
          strip_through l hdig hdash Q Y.data, strip_of_match Y.data hY,
          show Q ++ l :: [] = Q ++ [l] from rfl, ← hQl]
      have hPYne : P ++ Y ≠ "" := by
        intro hcontra
        apply hPne
        have hd : P.data ++ Y.data = [] := by
          rw [← String.data_append, hcontra]
        exact String.ext (by simpa using (List.append_eq_nil.1 hd).1)
      constructor
      · rw [getRankByUrl, getRankByUrl, if_neg hPYne, if_neg hPne, hcleanP, hcleanPY]
      · rw [getRankByUrl, if_neg hPne, hcleanP]
        by_cases hty : ty = "conference"
        · simp only [addEntry, if_pos hty]
          rw [assocGet_assocSet_self]
          rfl
        · simp only [addEntry, if_neg hty]
          cases hconf : assocGet st.conferences P with
          | some e => simp
          | none =>
            rw [assocGet_assocSet_self]
            rfl
  · intro st rank abbr fullName P
    simp only [addEntry, if_pos rfl]
    exact assocGet_assocSet_self _ _ _

/-- C2 witness: the amended lookup identity at the stored path /conf/x/x
with suffix 2023, hypotheses checked by computation. -/
theorem c2_year_suffix_lookup_witness :
    getRankByUrl (addEntry emptyCCF "A" "X" "X" "/conf/x/x" "conference") ("/conf/x/x" ++ "2023") =
      getRankByUrl (addEntry emptyCCF "A" "X" "X" "/conf/x/x" "conference") "/conf/x/x" ∧
    (getRankByUrl (addEntry emptyCCF "A" "X" "X" "/conf/x/x" "conference") "/conf/x/x").isSome = true := by
  exact c2_year_suffix_lookup.1 emptyCCF "A" "X" "X" "/conf/x/x" "conference" "2023"
    (by decide) (by decide) (by decide) (by decide)

/-- A string prefixed with p starts with p. -/
theorem jsStartsWith_append (p s : String) : jsStartsWith (p ++ s) p = true := by
  rw [jsStartsWith, String.data_append, List.isPrefixOf_iff_prefix]
  exact List.prefix_append p.data s.data

/-- Removal yields a sublist. -/
theorem lsRemove_sublist {α : Type} (st : CacheStore α) (k : String) :
    (lsRemove st k).Sublist st := by
  induction st with
  | nil => exact List.Sublist.refl []
  | cons e rest ih =>
    rw [lsRemove]
    by_cases he : e.1 = k
    · rw [if_pos he]
      exact List.sublist_cons_self e rest
    · rw [if_neg he]
      exact List.Sublist.cons₂ e ih

/-- A fold of removals yields a sublist. -/
theorem foldlRemove_sublist {α : Type} (ks : List (String × Nat)) :
    ∀ (st : CacheStore α),
      (ks.foldl (fun s kv => lsRemove s kv.1) st).Sublist st := by
  induction ks with
  | nil => intro st; exact List.Sublist.refl st
  | cons kv ks ih =>
    intro st
    rw [List.foldl_cons]
    exact (ih (lsRemove st kv.1)).trans (lsRemove_sublist st kv.1)


/-- One-step unfolding of the cleanup scan on a nonempty store. -/
theorem cleanupScan_cons {α : Type} (cfg : CacheCfg) (now : Nat)
    (e : String × CacheItem α) (rest : CacheStore α) :
    cleanupScan cfg now (e :: rest) =
      if jsStartsWith e.1 cfg.keyPfx then
        if e.2.expires ≠ 0 then
          if now > e.2.expires then
            match rest with
            | [] => ([], [])
            | e2 :: rest2 =>
              (e2 :: (cleanupScan cfg now rest2).1, (cleanupScan cfg now rest2).2)
          else
            (e :: (cleanupScan cfg now rest).1,
              (e.1, e.2.expires) :: (cleanupScan cfg now rest).2)
        else (e :: (cleanupScan cfg now rest).1, (cleanupScan cfg now rest).2)
      else (e :: (cleanupScan cfg now rest).1, (cleanupScan cfg now rest).2) := by
  cases rest with
  | nil => rfl
  | cons e2 rest2 => rfl

/-- The store that survives the cleanup scan is a sublist of the input. -/
theorem cleanupScan_fst_sublist {α : Type} (cfg : CacheCfg) (now : Nat) :
    ∀ (st : CacheStore α), (cleanupScan cfg now st).1.Sublist st := by
  intro st
  induction st using cleanupScan.induct cfg now with
  | case1 => simp [cleanupScan]
  | case2 e h1 h2 h3 =>
    rw [cleanupScan_cons, if_pos h1, if_pos h2, if_pos h3]
    exact List.nil_sublist [e]
  | case3 e h1 h2 h3 e2 rest2 ih1 =>
    rw [cleanupScan_cons, if_pos h1, if_pos h2, if_pos h3]
    exact List.Sublist.cons e (List.Sublist.cons₂ e2 ih1)
  | case4 e rest h1 h2 h3 ih1 =>
    rw [cleanupScan_cons, if_pos h1, if_pos h2, if_neg h3]
    exact List.Sublist.cons₂ e ih1
  | case5 e rest h1 h2 ih1 =>
    rw [cleanupScan_cons, if_pos h1, if_neg h2]
    exact List.Sublist.cons₂ e ih1
  | case6 e rest h1 ih1 =>
    rw [cleanupScan_cons, if_neg h1]
    exact List.Sublist.cons₂ e ih1

/-- The whole cleanup yields a sublist of the input store. -/
theorem cleanup_sublist {α : Type} (cfg : CacheCfg) (now : Nat) (st : CacheStore α) :
    (cleanup cfg now st).Sublist st := by
  rw [cleanup]
  by_cases hc : (cleanupScan cfg now st).2.length > cfg.maxCacheSize
  · rw [if_pos hc]
    exact (foldlRemove_sublist _ _).trans (cleanupScan_fst_sublist cfg now st)
  · rw [if_neg hc]
    exact cleanupScan_fst_sublist cfg now st

/-- Key-nodup survives any sublist step. -/
theorem nodup_keys_of_sublist {α : Type} {st st' : CacheStore α}
    (hsub : st'.Sublist st) (hnd : (st.map Prod.fst).Nodup) :
    (st'.map Prod.fst).Nodup :=
  (hsub.map Prod.fst).nodup hnd

/-- Writing an absent key appends the entry at the end. -/
theorem lsSet_append {α : Type} (st : CacheStore α) (k : String) (it : CacheItem α)
    (habs : ∀ e ∈ st, e.1 ≠ k) :
    lsSet st k it = st ++ [(k, it)] := by
  induction st with
  | nil => rfl
  | cons e rest ih =>
    rw [lsSet, if_neg (habs e (List.mem_cons_self e rest)),
      ih (fun x hx => habs x (List.mem_cons_of_mem e hx)), List.cons_append]

/-- C6: a quota failure on the write makes setItem clear every prefixed
entry (foreign entries survive) and retry exactly once: a successful
retry leaves exactly the non-prefixed survivors plus the triggering
entry and reports true; a failing retry leaves the cleared store and
reports false instead of raising. -/
theorem c6_quota_recovery :
    ∀ (st : CacheStore Nat) (now : Nat) (k : String) (v : Nat),
      (st.map Prod.fst).Nodup →
      setItem apiCacheCfg true false now st k v =
        (true, (cleanup apiCacheCfg now st).filter
            (fun e => !jsStartsWith e.1 "CCFrank4dblp_") ++
          [("CCFrank4dblp_" ++ k, ⟨v, now + 86400000, now⟩)]) ∧
      setItem apiCacheCfg true true now st k v =
        (false, (cleanup apiCacheCfg now st).filter
          (fun e => !jsStartsWith e.1 "CCFrank4dblp_")) := by
  intro st now k v hnd
  have hnd1 : ((cleanup apiCacheCfg now st).map Prod.fst).Nodup :=
    nodup_keys_of_sublist (cleanup_sublist apiCacheCfg now st) hnd
  have hclear : clearAll apiCacheCfg (cleanup apiCacheCfg now st) =
      (cleanup apiCacheCfg now st).filter (fun e => !jsStartsWith e.1 "CCFrank4dblp_") :=
    clearAll_eq_filter apiCacheCfg _ hnd1
  have habs : ∀ e ∈ (cleanup apiCacheCfg now st).filter
      (fun e => !jsStartsWith e.1 "CCFrank4dblp_"), e.1 ≠ "CCFrank4dblp_" ++ k := by
    intro e he hk
    have hf := List.of_mem_filter he
    rw [hk, jsStartsWith_append] at hf
    exact absurd hf (by simp)
  constructor
  · have hstep : setItem apiCacheCfg true false now st k v =
        (true, lsSet (clearAll apiCacheCfg (cleanup apiCacheCfg now st))
          ("CCFrank4dblp_" ++ k) ⟨v, now + 86400000, now⟩) := rfl
    rw [hstep, hclear, lsSet_append _ _ _ habs]
  · have hstep : setItem apiCacheCfg true true now st k v =
        (false, clearAll apiCacheCfg (cleanup apiCacheCfg now st)) := rfl
    rw [hstep, hclear]

/-- C6 witness: on a store with one prefixed and one foreign entry, the
quota path clears only the prefixed entry, appends the new one and
succeeds; a second failure reports false. -/
theorem c6_quota_recovery_witness :
    setItem apiCacheCfg true false 2 c6St "new" 8 =
      (true, (cleanup apiCacheCfg 2 c6St).filter
          (fun e => !jsStartsWith e.1 "CCFrank4dblp_") ++
        [("CCFrank4dblp_" ++ "new", ⟨8, 2 + 86400000, 2⟩)]) ∧
    setItem apiCacheCfg true true 2 c6St "new" 8 =
      (false, (cleanup apiCacheCfg 2 c6St).filter
        (fun e => !jsStartsWith e.1 "CCFrank4dblp_")) := by
  exact c6_quota_recovery c6St 2 "new" 8 (by decide)

/-- On a store of prefixed, truthy-expiry, unexpired entries the cleanup
scan removes nothing and collects every entry in order. -/
theorem cleanupScan_noop {α : Type} (cfg : CacheCfg) (now : Nat) :
    ∀ (st : CacheStore α),
      (∀ e ∈ st, jsStartsWith e.1 cfg.keyPfx = true ∧ e.2.expires ≠ 0 ∧
        ¬ now > e.2.expires) →
      cleanupScan cfg now st = (st, st.map (fun e => (e.1, e.2.expires))) := by
  intro st
  induction st with
  | nil => intro _; rfl
  | cons e rest ih =>
    intro hall
    obtain ⟨h1, h2, h3⟩ := hall e (List.mem_cons_self e rest)
    rw [cleanupScan_cons, if_pos h1, if_pos h2, if_neg h3,
      ih (fun x hx => hall x (List.mem_cons_of_mem e hx)), List.map_cons]

/-- Inserting below every element of a sorted list puts it in front. -/
theorem insertByExp_front (x : String × Nat) (l : List (String × Nat))
    (hx : ∀ y ∈ l, x.2 ≤ y.2) :
    insertByExp x l = x :: l := by
  cases l with
  | nil => rfl
  | cons y ys => rw [insertByExp, if_pos (hx y (List.mem_cons_self y ys))]

/-- The stable sort fixes an already expires-sorted list. -/
theorem sortByExpires_sorted (l : List (String × Nat))
    (hl : l.Pairwise (fun a b => a.2 ≤ b.2)) :
    sortByExpires l = l := by
  induction l with
  | nil => rfl
  | cons x rest ih =>
    rw [List.pairwise_cons] at hl
    rw [sortByExpires, List.foldr_cons]
    rw [show rest.foldr insertByExp [] = sortByExpires rest from rfl, ih hl.2]
    exact insertByExp_front x rest hl.1

/-- Removing, in order, the keys of a front segment peels it off. -/
theorem foldlRemove_front {α : Type} :
    ∀ (A B : CacheStore α),
      ((A.map (fun e => (e.1, e.2.expires))).foldl (fun s kv => lsRemove s kv.1) (A ++ B)) = B := by
  intro A
  induction A with
  | nil => intro B; rfl
  | cons a A ih =>
    intro B
    rw [List.map_cons, List.foldl_cons, List.cons_append,
      show lsRemove (a :: (A ++ B)) a.1 = A ++ B by rw [lsRemove]; exact if_pos rfl]
    exact ih B

/-- Left cancellation for string append. -/
theorem string_append_left_cancel {p a b : String} (h : p ++ a = p ++ b) : a = b := by
  apply String.ext
  have hd : p.data ++ a.data = p.data ++ b.data := by
    rw [← String.data_append, ← String.data_append, h]
  exact List.append_cancel_left hd

/-- The unary keys are pairwise distinct. -/
theorem uKeys_inj : ∀ i j : Nat, i < j → uKeys i ≠ uKeys j := by
  intro i j hij heq
  have hlen : (uKeys i).length = (uKeys j).length := by rw [heq]
  rw [show (uKeys i).length = i by
      rw [show (uKeys i).length = (List.replicate i 'a').length from rfl, List.length_replicate],
    show (uKeys j).length = j by
      rw [show (uKeys j).length = (List.replicate j 'a').length from rfl, List.length_replicate]]
    at hlen
  omega

/-- After m successful inserts of distinct keys at nondecreasing times
within one TTL window, the store holds exactly the most recent
min (m, maxCacheSize + 1) entries, in insertion order: cleanup trims to
maxCacheSize only when the count strictly exceeds it, and the insert then
adds one more. -/
theorem runInserts_eq {α : Type} (cfg : CacheCfg) (ks : Nat → String) (vs : Nat → α)
    (t : Nat → Nat)
    (hE : 0 < cfg.expiresAfter)
    (hks : ∀ i j, i < j → ks i ≠ ks j)
    (hmono : ∀ i j, i ≤ j → t i ≤ t j) :
    ∀ (m : Nat), (∀ i j, i ≤ j → j < m → t j ≤ t i + cfg.expiresAfter) →
      runInserts cfg ks vs t m =
        ((List.range m).drop (m - (cfg.maxCacheSize + 1))).map (entryAt cfg ks vs t) := by
  intro m
  induction m with
  | zero => intro _; simp [runInserts]
  | succ m ih =>
    intro hwin
    have hS := ih (fun i j hij hj => hwin i j hij (by omega))
    have hstep : runInserts cfg ks vs t (m + 1) =
        lsSet (cleanup cfg (t m) (runInserts cfg ks vs t m))
          (cfg.keyPfx ++ ks m) ⟨vs m, t m + cfg.expiresAfter, t m⟩ := rfl
    rw [hstep, hS]
    have hmemS : ∀ e ∈ ((List.range m).drop (m - (cfg.maxCacheSize + 1))).map
        (entryAt cfg ks vs t), ∃ i, i < m ∧ e = entryAt cfg ks vs t i := by
      intro e he
      obtain ⟨i, hi, hei⟩ := List.mem_map.1 he
      exact ⟨i, List.mem_range.1 (List.drop_subset _ _ hi), hei.symm⟩
    have hcond : ∀ e ∈ ((List.range m).drop (m - (cfg.maxCacheSize + 1))).map
        (entryAt cfg ks vs t),
        jsStartsWith e.1 cfg.keyPfx = true ∧ e.2.expires ≠ 0 ∧ ¬ t m > e.2.expires := by
      intro e he
      obtain ⟨i, hi, rfl⟩ := hmemS e he
      refine ⟨jsStartsWith_append cfg.keyPfx (ks i), ?_, ?_⟩
      · show t i + cfg.expiresAfter ≠ 0
        omega
      · show ¬ t m > t i + cfg.expiresAfter
        have := hwin i m (by omega) (by omega)
        omega
    have hscan := cleanupScan_noop cfg (t m)
      (((List.range m).drop (m - (cfg.maxCacheSize + 1))).map (entryAt cfg ks vs t)) hcond
    have hlenS : (((List.range m).drop (m - (cfg.maxCacheSize + 1))).map
        (entryAt cfg ks vs t)).length = m - (m - (cfg.maxCacheSize + 1)) := by
      rw [List.length_map, List.length_drop, List.length_range]
    have habs : ∀ e ∈ ((List.range m).drop (m - (cfg.maxCacheSize + 1))).map
        (entryAt cfg ks vs t), e.1 ≠ cfg.keyPfx ++ ks m := by
      intro e he hk
      obtain ⟨i, hi, rfl⟩ := hmemS e he
      exact hks i m hi (string_append_left_cancel hk)
    rw [cleanup, hscan]
    by_cases hsmall : m ≤ cfg.maxCacheSize
    · rw [if_neg (by
        rw [show (((List.range m).drop (m - (cfg.maxCacheSize + 1))).map
          (entryAt cfg ks vs t)).map (fun e => (e.1, e.2.expires)) =
            (((List.range m).drop (m - (cfg.maxCacheSize + 1))).map
              (entryAt cfg ks vs t)).map (fun e => (e.1, e.2.expires)) from rfl,
          List.length_map, hlenS]
        omega)]
      rw [lsSet_append _ _ _ habs]
      have hd0 : m - (cfg.maxCacheSize + 1) = 0 := by omega
      have hd0' : m + 1 - (cfg.maxCacheSize + 1) = 0 := by omega
      rw [hd0, hd0', List.drop_zero, List.drop_zero, List.range_succ, List.map_append]
      rfl
    · have hbig : cfg.maxCacheSize + 1 ≤ m := by omega
      have hlenkeys : ((((List.range m).drop (m - (cfg.maxCacheSize + 1))).map
          (entryAt cfg ks vs t)).map (fun e => (e.1, e.2.expires))).length =
          cfg.maxCacheSize + 1 := by
        rw [List.length_map, hlenS]
        omega
      rw [if_pos (by rw [hlenkeys]; omega)]
      have hpair : ((((List.range m).drop (m - (cfg.maxCacheSize + 1))).map
          (entryAt cfg ks vs t)).map (fun e => (e.1, e.2.expires))).Pairwise
          (fun a b => a.2 ≤ b.2) := by
        rw [List.map_map]
        refine List.Pairwise.map _ ?_
          (((List.pairwise_lt_range m).sublist (List.drop_sublist _ _)))
        intro a b hab
        show (entryAt cfg ks vs t a).2.expires ≤ (entryAt cfg ks vs t b).2.expires
        have := hmono a b (by omega)
        show t a + cfg.expiresAfter ≤ t b + cfg.expiresAfter
        omega
      rw [sortByExpires_sorted _ hpair, hlenkeys]
      have htake : cfg.maxCacheSize + 1 - cfg.maxCacheSize = 1 := by omega
      rw [htake]
      have hfold := foldlRemove_front
        ((((List.range m).drop (m - (cfg.maxCacheSize + 1))).map (entryAt cfg ks vs t)).take 1)
        ((((List.range m).drop (m - (cfg.maxCacheSize + 1))).map (entryAt cfg ks vs t)).drop 1)
      rw [List.take_append_drop] at hfold
      rw [← List.map_take]
      dsimp only
      rw [hfold]
      rw [lsSet_append _ _ _ (fun e he hk =>
        habs e (List.drop_subset _ _ he) hk)]
      rw [← List.map_drop, List.drop_drop]
      have hidx : m + 1 - (cfg.maxCacheSize + 1) = 1 + (m - (cfg.maxCacheSize + 1)) := by
        omega
      rw [hidx, List.range_succ,
        List.drop_append_of_le_length (by rw [List.length_range]; omega), List.map_append,
        Nat.add_comm 1 (m - (cfg.maxCacheSize + 1))]
      rfl

/-- C3 amended: from the empty cache, n >= capacity + 1 successful
inserts of distinct keys at nondecreasing times inside one TTL window
leave exactly capacity + 1 = 1001 entries, namely the capacity + 1 most
recently inserted (latest-expiry) ones in order: the pre-insertion
cleanup removes expired entries and evicts soonest-expiry entries only
when the count strictly exceeds the capacity, trimming to exactly
capacity, and the insertion then raises the count back to capacity + 1. -/
theorem c3_capacity_retention :
    ∀ (cfg : CacheCfg) (ks : Nat → String) (vs : Nat → Nat) (t : Nat → Nat) (n : Nat),
      0 < cfg.expiresAfter →
      (∀ i j, i < j → ks i ≠ ks j) →
      (∀ i j, i ≤ j → t i ≤ t j) →
      (∀ i j, i ≤ j → j < n → t j ≤ t i + cfg.expiresAfter) →
      cfg.maxCacheSize + 1 ≤ n →
      runInserts cfg ks vs t n =
        ((List.range n).drop (n - (cfg.maxCacheSize + 1))).map (entryAt cfg ks vs t) ∧
      (runInserts cfg ks vs t n).length = cfg.maxCacheSize + 1 := by
  intro cfg ks vs t n hE hks hmono hwin hn
  have h := runInserts_eq cfg ks vs t hE hks hmono n hwin
  refine ⟨h, ?_⟩
  rw [h, List.length_map, List.length_drop, List.length_range]
  omega

/-- C3 counterexample: 1002 = capacity + 2 distinct unexpired inserts
leave 1001 entries, not the 1000 the claim states. -/
theorem c3_counterexample :
    (runInserts apiCacheCfg uKeys (fun i => i) (fun i => i) 1002).length = 1001 ∧
    (runInserts apiCacheCfg uKeys (fun i => i) (fun i => i) 1002).length ≠ 1000 := by
  have h := runInserts_eq apiCacheCfg uKeys (fun i => i) (fun i => i) (by decide)
    uKeys_inj (fun i j hij => hij) 1002 (fun i j hij hj => by
      show j ≤ i + 86400000
      omega)
  rw [h, List.length_map, List.length_drop, List.length_range]
  exact ⟨rfl, by decide⟩

/-- C3 witness: the amended retention statement at the concrete schedule
of 1002 inserts with unary keys at times 0, 1, 2, ... -/
theorem c3_capacity_retention_witness :
    runInserts apiCacheCfg uKeys (fun i => i) (fun i => i) 1002 =
      ((List.range 1002).drop (1002 - (apiCacheCfg.maxCacheSize + 1))).map
        (entryAt apiCacheCfg uKeys (fun i => i) (fun i => i)) ∧
    (runInserts apiCacheCfg uKeys (fun i => i) (fun i => i) 1002).length =
      apiCacheCfg.maxCacheSize + 1 := by
  exact c3_capacity_retention apiCacheCfg uKeys (fun i => i) (fun i => i) 1002
    (by decide) uKeys_inj (fun i j hij => hij)
    (fun i j hij hj => by show j ≤ i + 86400000; omega) (by decide)
